import Mathlib

/-!
Verification of the GPAW grid-descriptor / eigensolver core.

This file shallowly embeds the parts of the code base relevant to the
properties under scrutiny:

* `gpaw/grid_descriptor.py` — the axis partition computed in
  `GridDescriptor.__init__`, `integrate`, `collect`/`distribute`, `zero_pad`,
  and the radial-grid `truncate` methods,
* `gpaw/pair_overlap.py` — the prefix-sum block index space and
  `ProjectorPairOverlap.update`,
* `gpaw/eigensolvers/eigensolver.py` — the serial diagonalizer wrapper,
* `gpaw/eigensolvers/__init__.py` — the subspace-diagonalization band check,
* `gridpaw/poisson_solver.py` — the convergence loop of `PoissonSolver.solve`.

Machine floats are modelled by exact rationals (the partition rounding
`around(x + 0.4999)` becomes `⌊x + 9999/10000⌋`), MPI collectives by the data
flow they induce, and numpy arrays by functions (with an explicit buffer
store where aliasing of views matters).
-/

namespace GpawProof

open Matrix

/-! ### Axis partition of `GridDescriptor.__init__`

`grid_descriptor.py` lines 109-130: for each axis with `N` global points split
over `parsize` workers, the partition points are
`n_p = around(arange(parsize+1) * float(N)/parsize + 0.4999)`, with `n_p[0]`
forced to `1` on non-periodic axes; construction fails (`Grid too small!`)
unless all consecutive differences are nonzero.  `beg_c`/`end_c` on the worker
at position `w` along the axis are `n_p[w]` and `n_p[w+1]`. -/

/-- Partition point before the periodicity adjustment:
`around(i * N / parsize + 0.4999)` in exact rational arithmetic, i.e.
`⌊(i*N)/P + 9999/10000⌋`. -/
def rawPoint (N P i : ℕ) : ℕ :=
  (10000 * i * N + 9999 * P) / (10000 * P)

/-- Partition point after the `if not pbc: n_p[0] = 1` adjustment. -/
def nPoint (N P : ℕ) (pbc : Bool) (i : ℕ) : ℕ :=
  if pbc = false ∧ i = 0 then 1 else rawPoint N P i

/-- `beg_c` of the worker at position `w` along the axis. -/
def begIdx (N P : ℕ) (pbc : Bool) (w : ℕ) : ℕ := nPoint N P pbc w

/-- `end_c` of the worker at position `w` along the axis. -/
def endIdx (N P : ℕ) (pbc : Bool) (w : ℕ) : ℕ := nPoint N P pbc (w + 1)

/-- `self.n_c = self.end_c - self.beg_c` (line 130). -/
def nLocal (N P : ℕ) (pbc : Bool) (w : ℕ) : ℕ :=
  endIdx N P pbc w - begIdx N P pbc w

/-- The `Grid too small!` check (line 123-124) passes: all consecutive
partition points differ. -/
def validPartition (N P : ℕ) (pbc : Bool) : Prop :=
  ∀ i, i < P → nPoint N P pbc (i + 1) ≠ nPoint N P pbc i

instance (N P : ℕ) (pbc : Bool) : Decidable (validPartition N P pbc) :=
  Nat.decidableBallLT _ _

theorem rawPoint_mono {N P : ℕ} {i j : ℕ} (h : i ≤ j) :
    rawPoint N P i ≤ rawPoint N P j := by
  unfold rawPoint
  exact Nat.div_le_div_right
    (Nat.add_le_add_right (Nat.mul_le_mul_right N (Nat.mul_le_mul_left _ h)) _)

theorem rawPoint_zero (N P : ℕ) : rawPoint N P 0 = 0 := by
  rcases Nat.eq_zero_or_pos P with hP | hP
  · subst hP; simp [rawPoint]
  · unfold rawPoint
    rw [Nat.mul_zero, Nat.zero_mul, Nat.zero_add]
    exact Nat.div_eq_of_lt (Nat.mul_lt_mul_of_lt_of_le (by norm_num) le_rfl hP)

theorem nPoint_of_ne_zero {N P i : ℕ} (pbc : Bool) (hi : i ≠ 0) :
    nPoint N P pbc i = rawPoint N P i := by
  unfold nPoint
  exact if_neg (fun h => hi h.2)

theorem rawPoint_last {N P : ℕ} (hP : 0 < P) : rawPoint N P P = N := by
  unfold rawPoint
  have h : 10000 * P * N + 9999 * P = 9999 * P + 10000 * P * N := by ring
  rw [h, Nat.add_mul_div_left _ _ (by positivity),
    Nat.div_eq_of_lt (Nat.mul_lt_mul_of_lt_of_le (by norm_num) le_rfl hP),
    Nat.zero_add]

/-- If the first raw partition point were zero on a valid non-periodic axis
of a nonempty grid, the remaining points could not all be distinct. -/
theorem one_le_rawPoint_one {N P : ℕ} (hN : 0 < N) (hP : 0 < P)
    (hv : validPartition N P false) : 1 ≤ rawPoint N P 1 := by
  by_contra hcon
  have h1 : rawPoint N P 1 = 0 := by omega
  by_cases hP1 : P = 1
  · subst hP1
    have := rawPoint_last (N := N) hP
    omega
  · -- raw points are strictly increasing from index 1 on, by validity
    have hstep : ∀ i, 1 ≤ i → i < P → rawPoint N P i < rawPoint N P (i + 1) := by
      intro i hi1 hiP
      have hne := hv i hiP
      rw [nPoint_of_ne_zero false (by omega), nPoint_of_ne_zero false (by omega)] at hne
      exact lt_of_le_of_ne (rawPoint_mono (Nat.le_succ i)) (Ne.symm hne)
    have hgrow : ∀ k, 1 ≤ k → k ≤ P → rawPoint N P 1 + (k - 1) ≤ rawPoint N P k := by
      intro k
      induction k with
      | zero => omega
      | succ m ih =>
        intro _ hmP
        rcases Nat.eq_zero_or_pos m with hm0 | hm1
        · subst hm0; simp
        · have h3 := ih hm1 (by omega)
          have h4 := hstep m hm1 (by omega)
          omega
    have hNP : P - 1 ≤ N := by
      have := hgrow P hP (le_refl P)
      rw [rawPoint_last hP, h1] at this
      omega
    have hsmall : 10000 * N < P := by
      have hpos : 0 < 10000 * P := by positivity
      have h5 : 10000 * 1 * N + 9999 * P < 10000 * P := by
        rw [rawPoint] at h1
        exact (Nat.div_eq_zero_iff hpos).mp h1
      omega
    omega

theorem nPoint_mono {N P : ℕ} {pbc : Bool} (hN : 0 < N) (hP : 0 < P)
    (hv : validPartition N P pbc) :
    ∀ i j, i ≤ j → j ≤ P → nPoint N P pbc i ≤ nPoint N P pbc j := by
  intro i j hij hjP
  cases pbc with
  | true =>
    simp only [nPoint, Bool.true_eq_false, false_and, if_false]
    exact rawPoint_mono hij
  | false =>
    rcases Nat.eq_zero_or_pos i with hi0 | hi1
    · subst hi0
      rcases Nat.eq_zero_or_pos j with hj0 | hj1
      · subst hj0; exact le_refl _
      · have h3 : nPoint N P false 0 = 1 := by simp [nPoint]
        rw [h3, nPoint_of_ne_zero (i := j) false (by omega)]
        exact le_trans (one_le_rawPoint_one hN hP hv) (rawPoint_mono hj1)
    · rw [nPoint_of_ne_zero false (by omega), nPoint_of_ne_zero false (by omega)]
      exact rawPoint_mono hij

theorem nPoint_zero (N P : ℕ) (pbc : Bool) :
    nPoint N P pbc 0 = if pbc then 0 else 1 := by
  cases pbc <;> simp [nPoint, rawPoint_zero]

theorem nPoint_last {N P : ℕ} (pbc : Bool) (hP : 0 < P) :
    nPoint N P pbc P = N := by
  have h : ¬(pbc = false ∧ P = 0) := by
    intro h; omega
  rw [nPoint, if_neg h, rawPoint_last hP]

/-- Partition-interval search: a monotone sequence of interval endpoints
covering `x` has an interval containing `x`. -/
theorem exists_owner {f : ℕ → ℕ} {P x : ℕ}
    (mono : ∀ i j, i ≤ j → j ≤ P → f i ≤ f j)
    (h0 : f 0 ≤ x) (hP : x < f P) :
    ∃ w, w < P ∧ f w ≤ x ∧ x < f (w + 1) := by
  induction P with
  | zero => omega
  | succ Q ih =>
    by_cases h : f Q ≤ x
    · exact ⟨Q, Nat.lt_succ_self Q, h, hP⟩
    · push_neg at h
      obtain ⟨w, hw, h1, h2⟩ :=
        ih (fun i j hij hj => mono i j hij (Nat.le_succ_of_le hj)) h
      exact ⟨w, Nat.lt_succ_of_lt hw, h1, h2⟩

/-- Partition intervals of a monotone endpoint sequence are pairwise
disjoint. -/
theorem owner_unique {f : ℕ → ℕ} {P w w' x : ℕ}
    (mono : ∀ i j, i ≤ j → j ≤ P → f i ≤ f j)
    (hw : w < P) (hw' : w' < P)
    (h1 : f w ≤ x) (h2 : x < f (w + 1))
    (h3 : f w' ≤ x) (h4 : x < f (w' + 1)) : w = w' := by
  rcases lt_trichotomy w w' with h | h | h
  · have := mono (w + 1) w' h (le_of_lt hw')
    omega
  · exact h
  · have := mono (w' + 1) w h (le_of_lt hw)
    omega

/-- C1: on every axis of a validly constructed `GridDescriptor` (grid of `N`
points split over `P` workers, periodic flag `pbc`, passing the
`Grid too small!` check), the per-worker ranges `[beg_c, end_c)` tile the
global index range: their union is exactly `[0, N)` for a periodic axis and
`[1, N)` for a non-periodic one, distinct workers never overlap, and on every
worker `end_c - beg_c` equals the local point count `n_c`. -/
theorem C1_partition_tiling (N P : ℕ) (pbc : Bool) (hN : 0 < N) (hP : 0 < P)
    (hv : validPartition N P pbc) :
    (∀ x, (∃ w, w < P ∧ begIdx N P pbc w ≤ x ∧ x < endIdx N P pbc w) ↔
      ((if pbc then 0 else 1) ≤ x ∧ x < N))
    ∧ (∀ w w' x, w < P → w' < P → w ≠ w' →
        ¬(begIdx N P pbc w ≤ x ∧ x < endIdx N P pbc w ∧
          begIdx N P pbc w' ≤ x ∧ x < endIdx N P pbc w'))
    ∧ (∀ w, nLocal N P pbc w = endIdx N P pbc w - begIdx N P pbc w) := by
  have mono := nPoint_mono hN hP hv
  refine ⟨?_, ?_, fun w => rfl⟩
  · intro x
    constructor
    · rintro ⟨w, hw, h1, h2⟩
      have ha := mono 0 w (Nat.zero_le w) (le_of_lt hw)
      have hb := mono (w + 1) P hw (le_refl P)
      rw [nPoint_zero] at ha
      rw [nPoint_last pbc hP] at hb
      exact ⟨le_trans ha h1, lt_of_lt_of_le h2 hb⟩
    · rintro ⟨h1, h2⟩
      have h0 : nPoint N P pbc 0 ≤ x := by rw [nPoint_zero]; exact h1
      have hPx : x < nPoint N P pbc P := by rw [nPoint_last pbc hP]; exact h2
      exact exists_owner mono h0 hPx
  · rintro w w' x hw hw' hne ⟨h1, h2, h3, h4⟩
    exact hne (owner_unique mono hw hw' h1 h2 h3 h4)

/-- Witness for C1 at `N = 8`, `P = 2`, periodic axis. -/
theorem C1_partition_tiling_witness :
    (0 < 8 ∧ 0 < 2 ∧ validPartition 8 2 true) ∧
    ((∀ x, (∃ w, w < 2 ∧ begIdx 8 2 true w ≤ x ∧ x < endIdx 8 2 true w) ↔
      ((if true then 0 else 1) ≤ x ∧ x < 8))
    ∧ (∀ w w' x, w < 2 → w' < 2 → w ≠ w' →
        ¬(begIdx 8 2 true w ≤ x ∧ x < endIdx 8 2 true w ∧
          begIdx 8 2 true w' ≤ x ∧ x < endIdx 8 2 true w'))
    ∧ (∀ w, nLocal 8 2 true w = endIdx 8 2 true w - begIdx 8 2 true w)) :=
  ⟨⟨by decide, by decide, by decide⟩,
   C1_partition_tiling 8 2 true (by decide) (by decide) (by decide)⟩

/-! ### `GridDescriptor.collect` / `GridDescriptor.distribute`

`grid_descriptor.py` lines 340-417.  Both walk the decomposition positions
`(n0, n1, n2)` in the same nested order with a running rank counter `r`, and
slice / place the sub-blocks `[b, e) = n_cp[c][n .. n+2] - beg_c[c]` of the
master.  A 3-D array is modelled as a function on indices; values only matter
below the global extents. -/

/-- One axis of a grid decomposition. -/
structure Axis where
  N : ℕ
  P : ℕ
  pbc : Bool

/-- A validly constructed axis: nonempty grid, at least one worker, and the
`Grid too small!` check passes. -/
def Axis.ok (a : Axis) : Prop :=
  0 < a.N ∧ 0 < a.P ∧ validPartition a.N a.P a.pbc

instance (a : Axis) : Decidable a.ok := by
  unfold Axis.ok; infer_instance

/-- Start of worker position `w`'s block inside the global array along one
axis: `n_cp[c][w] - beg_c[c]` evaluated on the master.

Modelled from the spec: the `Domain` base class (which fixes the
rank-to-decomposition-position map, hence the master's `beg_c`) is not among
the sources; per the spec's partition description the master (rank 0) sits at
decomposition position `(0, 0, 0)`, so its `beg_c` is the first partition
point `n_cp[c][0]`. -/
def Axis.off (a : Axis) (w : ℕ) : ℕ :=
  nPoint a.N a.P a.pbc w - nPoint a.N a.P a.pbc 0

/-- Extent of the global (unpadded) array along one axis:
`get_size_of_global_array` gives `N - 1 + pbc` (line 150). -/
def Axis.extent (a : Axis) : ℕ := a.N - 1 + (if a.pbc then 1 else 0)

theorem Axis.off_mono {a : Axis} (h : a.ok) :
    ∀ i j, i ≤ j → j ≤ a.P → a.off i ≤ a.off j := fun i j hij hj =>
  Nat.sub_le_sub_right (nPoint_mono h.1 h.2.1 h.2.2 i j hij hj) _

theorem Axis.off_zero (a : Axis) : a.off 0 = 0 := Nat.sub_self _

theorem Axis.off_last {a : Axis} (h : a.ok) : a.off a.P = a.extent := by
  unfold Axis.off Axis.extent
  rw [nPoint_last a.pbc h.2.1, nPoint_zero]
  have h1 := h.1
  cases a.pbc <;> simp <;> omega

/-- 3-D array of rationals, as a total function on indices. -/
def Arr3 : Type := ℕ → ℕ → ℕ → ℚ

/-- Decomposition positions `(n0, n1, n2)` in the rank order of the loops in
`collect` / `distribute` (outer axis 0, inner axis 2). -/
def workerList (a0 a1 a2 : Axis) : List (ℕ × ℕ × ℕ) :=
  (List.range a0.P).bind fun w0 =>
    (List.range a1.P).bind fun w1 =>
      (List.range a2.P).map fun w2 => (w0, w1, w2)

theorem mem_workerList {a0 a1 a2 : Axis} {w : ℕ × ℕ × ℕ} :
    w ∈ workerList a0 a1 a2 ↔ w.1 < a0.P ∧ w.2.1 < a1.P ∧ w.2.2 < a2.P := by
  obtain ⟨w0, w1, w2⟩ := w
  simp [workerList, List.mem_bind, List.mem_range, List.mem_map]
  aesop

/-- The local block `distribute` hands to the worker at decomposition
position `w`: the slice `B_xg[..., b0:e0, b1:e1, b2:e2]` of the global
array (lines 399-413). -/
def distributeLocal (a0 a1 a2 : Axis) (G : Arr3) (w : ℕ × ℕ × ℕ) : Arr3 :=
  fun i j k => G (a0.off w.1 + i) (a1.off w.2.1 + j) (a2.off w.2.2 + k)

/-- Membership of the point `(i, j, k)` in worker `w`'s sub-block. -/
def inBlock3 (a0 a1 a2 : Axis) (w : ℕ × ℕ × ℕ) (i j k : ℕ) : Prop :=
  a0.off w.1 ≤ i ∧ i < a0.off (w.1 + 1) ∧
  a1.off w.2.1 ≤ j ∧ j < a1.off (w.2.1 + 1) ∧
  a2.off w.2.2 ≤ k ∧ k < a2.off (w.2.2 + 1)

instance (a0 a1 a2 : Axis) (w : ℕ × ℕ × ℕ) (i j k : ℕ) :
    Decidable (inBlock3 a0 a1 a2 w i j k) := by
  unfold inBlock3; infer_instance

/-- `A_xg[..., b0:e0, b1:e1, b2:e2] = a_xg` — placing worker `w`'s block into
the big array (line 375). -/
def writeBlock (a0 a1 a2 : Axis) (A : Arr3) (w : ℕ × ℕ × ℕ) (data : Arr3) :
    Arr3 := fun i j k =>
  if inBlock3 a0 a1 a2 w i j k then
    data (i - a0.off w.1) (j - a1.off w.2.1) (k - a2.off w.2.2)
  else A i j k

/-- `collect`: place every worker's block into the global array, in rank
order. -/
def collect (a0 a1 a2 : Axis) (locals : ℕ × ℕ × ℕ → Arr3) (A0 : Arr3) :
    Arr3 :=
  (workerList a0 a1 a2).foldl (fun A w => writeBlock a0 a1 a2 A w (locals w)) A0

theorem collect_go_not_mem {a0 a1 a2 : Axis} (locals : ℕ × ℕ × ℕ → Arr3)
    (L : List (ℕ × ℕ × ℕ)) (A0 : Arr3) (i j k : ℕ)
    (h : ∀ w ∈ L, ¬inBlock3 a0 a1 a2 w i j k) :
    L.foldl (fun A w => writeBlock a0 a1 a2 A w (locals w)) A0 i j k
      = A0 i j k := by
  induction L generalizing A0 with
  | nil => rfl
  | cons w L ih =>
    rw [List.foldl_cons, ih _ (fun u hu => h u (List.mem_cons_of_mem w hu))]
    exact if_neg (h w (List.mem_cons_self w L))

theorem collect_go_owner {a0 a1 a2 : Axis} (locals : ℕ × ℕ × ℕ → Arr3)
    (L : List (ℕ × ℕ × ℕ)) (A0 : Arr3) (i j k : ℕ) (u : ℕ × ℕ × ℕ)
    (hmem : u ∈ L)
    (huniq : ∀ w ∈ L, inBlock3 a0 a1 a2 w i j k → w = u)
    (hin : inBlock3 a0 a1 a2 u i j k) :
    L.foldl (fun A w => writeBlock a0 a1 a2 A w (locals w)) A0 i j k
      = locals u (i - a0.off u.1) (j - a1.off u.2.1) (k - a2.off u.2.2) := by
  induction L generalizing A0 with
  | nil => cases hmem
  | cons w L ih =>
    rw [List.foldl_cons]
    by_cases hu : u ∈ L
    · exact ih _ hu (fun v hv => huniq v (List.mem_cons_of_mem w hv))
    · have hwu : w = u := by
        rcases List.mem_cons.mp hmem with h | h
        · exact h.symm
        · exact absurd h hu
      subst hwu
      rw [collect_go_not_mem locals L _ i j k (fun v hv hvin => by
        exact hu (huniq v (List.mem_cons_of_mem w hv) hvin ▸ hv))]
      exact if_pos hin

/-- C4: scattering a global array with `distribute` (each worker receives its
`[beg, end)` sub-block, in rank order) and gathering with `collect` (each
block placed back at its global position, same traversal) reproduces the
original array at every in-range global index, for any worker counts —
including 1 (where the round trip is a plain copy), 2 and 8. -/
theorem C4_collect_distribute_roundtrip (a0 a1 a2 : Axis)
    (h0 : a0.ok) (h1 : a1.ok) (h2 : a2.ok) (G A0 : Arr3) (i j k : ℕ)
    (hi : i < a0.extent) (hj : j < a1.extent) (hk : k < a2.extent) :
    collect a0 a1 a2 (distributeLocal a0 a1 a2 G) A0 i j k = G i j k := by
  obtain ⟨w0, hw0, hw0a, hw0b⟩ :=
    exists_owner (a0.off_mono h0) (a0.off_zero ▸ Nat.zero_le i)
      (a0.off_last h0 ▸ hi)
  obtain ⟨w1, hw1, hw1a, hw1b⟩ :=
    exists_owner (a1.off_mono h1) (a1.off_zero ▸ Nat.zero_le j)
      (a1.off_last h1 ▸ hj)
  obtain ⟨w2, hw2, hw2a, hw2b⟩ :=
    exists_owner (a2.off_mono h2) (a2.off_zero ▸ Nat.zero_le k)
      (a2.off_last h2 ▸ hk)
  have hmem : (w0, w1, w2) ∈ workerList a0 a1 a2 :=
    mem_workerList.mpr ⟨hw0, hw1, hw2⟩
  have huniq : ∀ w ∈ workerList a0 a1 a2,
      inBlock3 a0 a1 a2 w i j k → w = (w0, w1, w2) := by
    rintro ⟨v0, v1, v2⟩ hv hvin
    obtain ⟨hv0, hv1, hv2⟩ := mem_workerList.mp hv
    obtain ⟨b0, b1, b2, b3, b4, b5⟩ := hvin
    have e0 := owner_unique (a0.off_mono h0) hv0 hw0 b0 b1 hw0a hw0b
    have e1 := owner_unique (a1.off_mono h1) hv1 hw1 b2 b3 hw1a hw1b
    have e2 := owner_unique (a2.off_mono h2) hv2 hw2 b4 b5 hw2a hw2b
    rw [show v0 = w0 from e0, show v1 = w1 from e1, show v2 = w2 from e2]
  rw [collect, collect_go_owner _ _ _ i j k (w0, w1, w2) hmem huniq
    ⟨hw0a, hw0b, hw1a, hw1b, hw2a, hw2b⟩]
  unfold distributeLocal
  rw [Nat.add_sub_cancel' hw0a, Nat.add_sub_cancel' hw1a,
    Nat.add_sub_cancel' hw2a]

/-- Witness for C4: a 2-worker decomposition of a `4×4×3` grid, evaluated at
the global point `(3, 1, 0)`. -/
theorem C4_collect_distribute_roundtrip_witness :
    (Axis.ok ⟨4, 2, true⟩ ∧ Axis.ok ⟨4, 1, true⟩ ∧ Axis.ok ⟨3, 1, false⟩ ∧
      3 < Axis.extent ⟨4, 2, true⟩ ∧ 1 < Axis.extent ⟨4, 1, true⟩ ∧
      0 < Axis.extent ⟨3, 1, false⟩) ∧
    collect ⟨4, 2, true⟩ ⟨4, 1, true⟩ ⟨3, 1, false⟩
      (distributeLocal ⟨4, 2, true⟩ ⟨4, 1, true⟩ ⟨3, 1, false⟩
        (fun i j k => (i * 100 + j * 10 + k : ℚ)))
      (fun _ _ _ => 0) 3 1 0
      = (fun i j k => (i * 100 + j * 10 + k : ℚ)) 3 1 0 :=
  ⟨⟨by decide, by decide, by decide, by decide, by decide, by decide⟩,
   C4_collect_distribute_roundtrip ⟨4, 2, true⟩ ⟨4, 1, true⟩ ⟨3, 1, false⟩
     (by decide) (by decide) (by decide) _ _ 3 1 0
     (by decide) (by decide) (by decide)⟩

/-! ### `GridDescriptor.integrate`

`grid_descriptor.py` lines 197-215, 3-D branch (`len(shape) == 3`):

    if b_xg is None:
        assert global_integral
        return self.comm.sum(a_xg.sum()) * self.dv
    else:
        assert not global_integral
        return np.vdot(a_xg, b_xg) * self.dv

The distributed array is a family of local (flattened) value lists, one per
communicator rank; `comm.sum` of a scalar is the sum over all ranks; a failed
`assert` is `none`. -/

/-- `np.vdot` of two real local arrays (flattened): sum of elementwise
products. -/
def vdotLocal (a b : List ℚ) : ℚ := (List.zipWith (· * ·) a b).sum

/-- `comm.sum(a_xg.sum())`: the communicator-wide sum of all elements. -/
def commSum (P : ℕ) (locals : ℕ → List ℚ) : ℚ :=
  ∑ w ∈ Finset.range P, (locals w).sum

theorem commSum_eq_join_sum (P : ℕ) (locals : ℕ → List ℚ) :
    commSum P locals = ((List.range P).map locals).join.sum := by
  induction P with
  | zero => simp [commSum]
  | succ Q ih =>
    rw [commSum, Finset.sum_range_succ, ← commSum, ih, List.range_succ]
    simp

/-- `GridDescriptor.integrate` on a 3-D distributed array, evaluated on
worker `rank`; `none` models an `AssertionError`. -/
def integrate (dv : ℚ) (P : ℕ) (locals : ℕ → List ℚ) (rank : ℕ)
    (other : Option (List ℚ)) (glob : Bool) : Option ℚ :=
  match other, glob with
  | none, true => some (commSum P locals * dv)
  | none, false => none
  | some b, false => some (vdotLocal (locals rank) b * dv)
  | some _, true => none

/-- C2 counterexample: `integrate(a)` with no second array and
`global_integral=False` does **not** return `dv` times the local sum — it
fails the `assert global_integral` (line 207). Concrete single-worker
instance with local data `[1, 2]` and `dv = 2`. -/
theorem C2_integrate_counterexample :
    ¬(integrate 2 1 (fun _ => [1, 2]) 0 none false
        = some (([1, 2] : List ℚ).sum * 2)) := by
  decide

/-- C2 amended: `integrate(a)` with `global_integral=True` returns `dv` times
the communicator-wide sum of all elements; with no second array and
`global_integral=False` it fails (assertion) instead of returning the local
sum; `integrate(a, b)` returns the local `vdot(a, b)` scaled by `dv` with no
cross-worker reduction; and a second array together with
`global_integral=True` fails (contract violation). -/
theorem C2_integrate_behavior (dv : ℚ) (P : ℕ) (locals : ℕ → List ℚ)
    (rank : ℕ) :
    (integrate dv P locals rank none true
      = some (((List.range P).map locals).join.sum * dv))
    ∧ (integrate dv P locals rank none false = none)
    ∧ (∀ b, integrate dv P locals rank (some b) false
        = some (vdotLocal (locals rank) b * dv))
    ∧ (∀ b, integrate dv P locals rank (some b) true = none) := by
  refine ⟨?_, rfl, fun _ => rfl, fun _ => rfl⟩
  rw [integrate, commSum_eq_join_sum]

/-! ### `GridDescriptor.zero_pad`

`grid_descriptor.py` lines 419-431. -/

/-- `1 - self.pbc_c[c]`: the number of padded planes along one axis. -/
def npb (pbc : Bool) : ℕ := 1 - (if pbc then 1 else 0)

/-- `zero_pad`: identity when all axes are periodic; otherwise a fresh
zero-initialized array of full shape `N_c` whose region
`b_xg[npbx:, npby:, npbz:]` holds the input. -/
def zeroPad (pbc0 pbc1 pbc2 : Bool) (a : Arr3) : Arr3 :=
  if pbc0 = true ∧ pbc1 = true ∧ pbc2 = true then a
  else fun i j k =>
    if npb pbc0 ≤ i ∧ npb pbc1 ≤ j ∧ npb pbc2 ≤ k then
      a (i - npb pbc0) (j - npb pbc1) (k - npb pbc2)
    else 0

/-- C10: with all three axes periodic `zero_pad` returns the input array
itself; otherwise the first plane along each non-periodic axis is zero and
every remaining entry equals the corresponding input entry (the input,
being a function, is untouched). -/
theorem C10_zero_pad (pbc0 pbc1 pbc2 : Bool) (a : Arr3) :
    (pbc0 = true ∧ pbc1 = true ∧ pbc2 = true → zeroPad pbc0 pbc1 pbc2 a = a)
    ∧ (¬(pbc0 = true ∧ pbc1 = true ∧ pbc2 = true) →
        (∀ j k, pbc0 = false → zeroPad pbc0 pbc1 pbc2 a 0 j k = 0)
        ∧ (∀ i k, pbc1 = false → zeroPad pbc0 pbc1 pbc2 a i 0 k = 0)
        ∧ (∀ i j, pbc2 = false → zeroPad pbc0 pbc1 pbc2 a i j 0 = 0)
        ∧ (∀ i j k, zeroPad pbc0 pbc1 pbc2 a
            (i + npb pbc0) (j + npb pbc1) (k + npb pbc2) = a i j k)) := by
  constructor
  · intro h
    rw [zeroPad, if_pos h]
  · intro h
    rw [zeroPad, if_neg h]
    refine ⟨?_, ?_, ?_, ?_⟩
    · intro j k h0
      rw [if_neg]
      rintro ⟨c0, -, -⟩
      rw [h0] at c0
      simp [npb] at c0
    · intro i k h1
      rw [if_neg]
      rintro ⟨-, c1, -⟩
      rw [h1] at c1
      simp [npb] at c1
    · intro i j h2
      rw [if_neg]
      rintro ⟨-, -, c2⟩
      rw [h2] at c2
      simp [npb] at c2
    · intro i j k
      rw [if_pos ⟨Nat.le_add_left _ _, Nat.le_add_left _ _, Nat.le_add_left _ _⟩,
        Nat.add_sub_cancel, Nat.add_sub_cancel, Nat.add_sub_cancel]

/-! ### `PairOverlap` index space (`pair_overlap.py` lines 14-29)

`ni_a = np.cumsum([0] + [setup.ni for setup in setups])` is the prefix-sum
table of per-atom projector counts; atom `a`'s block occupies rows/columns
`[ni_a[a], ni_a[a+1])` of a global pair matrix.  Global pair matrices are
modelled as total functions on `ℕ × ℕ` (entries beyond the matrix shape are
never consulted by the claims). -/

/-- `ni_a[a]`: cumulative projector count before atom `a`. -/
def niA (ni : List ℕ) (a : ℕ) : ℕ := (ni.take a).sum

theorem niA_succ (ni : List ℕ) (a : ℕ) (h : a < ni.length) :
    niA ni (a + 1) = niA ni a + ni.get ⟨a, h⟩ := by
  unfold niA
  rw [List.sum_take_succ ni a h]
  rfl

theorem niA_mono (ni : List ℕ) : Monotone (niA ni) := by
  apply monotone_nat_of_le_succ
  intro a
  by_cases h : a < ni.length
  · rw [niA_succ ni a h]
    exact Nat.le_add_right _ _
  · unfold niA
    rw [List.take_of_length_le (by omega), List.take_of_length_le (by omega)]

theorem niA_length (ni : List ℕ) : niA ni ni.length = ni.sum := by
  unfold niA
  rw [List.take_length]

/-- `assign_atomic_pair_matrix(X_aa, a1, a2, dX_ii)`:
`X_aa[ni_a[a1]:ni_a[a1+1], ni_a[a2]:ni_a[a2+1]] = dX_ii`. -/
def assignPair (ni : List ℕ) (X : ℕ → ℕ → ℚ) (a1 a2 : ℕ) (B : ℕ → ℕ → ℚ) :
    ℕ → ℕ → ℚ := fun i j =>
  if niA ni a1 ≤ i ∧ i < niA ni (a1 + 1) ∧
     niA ni a2 ≤ j ∧ j < niA ni (a2 + 1) then
    B (i - niA ni a1) (j - niA ni a2)
  else X i j

/-- `extract_atomic_pair_matrix(X_aa, a1, a2)`:
the view `X_aa[ni_a[a1]:ni_a[a1+1], ni_a[a2]:ni_a[a2+1]]`. -/
def extractPair (ni : List ℕ) (X : ℕ → ℕ → ℚ) (a1 a2 : ℕ) : ℕ → ℕ → ℚ :=
  fun p q => X (niA ni a1 + p) (niA ni a2 + q)

/-- C5: with `ni_a` the prefix sum of per-atom projector counts
(monotonically non-decreasing, total `ni_a[-1] = sum ni`), extracting the
`(a1, a2)` block right after assigning `B` there returns exactly `B`, and the
assignment leaves every entry outside that block unchanged. -/
theorem C5_assign_extract_inverse (ni : List ℕ) (M B : ℕ → ℕ → ℚ)
    (a1 a2 : ℕ) (h1 : a1 < ni.length) (h2 : a2 < ni.length) :
    (∀ p q, p < ni.get ⟨a1, h1⟩ → q < ni.get ⟨a2, h2⟩ →
      extractPair ni (assignPair ni M a1 a2 B) a1 a2 p q = B p q)
    ∧ (∀ i j, ¬(niA ni a1 ≤ i ∧ i < niA ni (a1 + 1) ∧
        niA ni a2 ≤ j ∧ j < niA ni (a2 + 1)) →
        assignPair ni M a1 a2 B i j = M i j)
    ∧ Monotone (niA ni)
    ∧ niA ni ni.length = ni.sum := by
  refine ⟨?_, ?_, niA_mono ni, niA_length ni⟩
  · intro p q hp hq
    unfold extractPair assignPair
    rw [if_pos, Nat.add_sub_cancel_left, Nat.add_sub_cancel_left]
    have e1 := niA_succ ni a1 h1
    have e2 := niA_succ ni a2 h2
    omega
  · intro i j h
    exact if_neg h

/-- Witness for C5: two atoms with 2 and 1 projectors. -/
theorem C5_assign_extract_inverse_witness :
    (0 < [2, 1].length ∧ 1 < [2, 1].length) ∧
    ((∀ p q, p < [2, 1].get ⟨0, by decide⟩ → q < [2, 1].get ⟨1, by decide⟩ →
      extractPair [2, 1] (assignPair [2, 1] (fun i j => (10 * i + j : ℚ)) 0 1
        (fun p q => (100 + p + q : ℚ))) 0 1 p q = (100 + p + q : ℚ))
    ∧ (∀ i j, ¬(niA [2, 1] 0 ≤ i ∧ i < niA [2, 1] 1 ∧
        niA [2, 1] 1 ≤ j ∧ j < niA [2, 1] 2) →
        assignPair [2, 1] (fun i j => (10 * i + j : ℚ)) 0 1
          (fun p q => (100 + p + q : ℚ)) i j = (10 * i + j : ℚ))
    ∧ Monotone (niA [2, 1])
    ∧ niA [2, 1] [2, 1].length = [2, 1].sum) :=
  ⟨⟨by decide, by decide⟩,
   C5_assign_extract_inverse [2, 1] _ _ 0 1 (by decide) (by decide)⟩

/-! ### `ProjectorPairOverlap.update` (`pair_overlap.py` lines 213-274)

`update` builds the block-diagonal `dO_aa` by `assign`ing every setup's
`O_ii` to its diagonal block, rotates it (`xO_aa = dB_aa · dO_aa`), solves
`np.linalg.solve(lhs_aa.T, rhs_aa.T).T` with `lhs_aa = I + xO_aa`,
`rhs_aa = -dO_aa`, and rotates again for `xC_aa`.  The projector-projector
overlap matrix `dB_aa` (computed from grid data by `calculate_overlaps`) and
the setups' `O_ii` blocks enter as parameters.  `np.linalg.solve` is a direct
dense solve; over an invertible matrix it returns exactly `A⁻¹ ⬝ B`, realized
executably through the adjugate. -/

/-- The diagonal-block accumulation loop of `update` (lines 245-247):
`for a, setup in enumerate(self.setups): assign(dO_aa, a, a, setup.O_ii)`
starting from a zero matrix. -/
def buildDO (ni : List ℕ) (O : ℕ → ℕ → ℕ → ℚ) : ℕ → ℕ → ℚ :=
  (List.range ni.length).foldl (fun X a => assignPair ni X a a (O a))
    (fun _ _ => 0)

/-- `(i, j)` lies in atom `a`'s diagonal block. -/
def inDiagBlock (ni : List ℕ) (a i j : ℕ) : Prop :=
  niA ni a ≤ i ∧ i < niA ni (a + 1) ∧ niA ni a ≤ j ∧ j < niA ni (a + 1)

instance (ni : List ℕ) (a i j : ℕ) : Decidable (inDiagBlock ni a i j) := by
  unfold inDiagBlock; infer_instance

theorem buildDO_go_notin (ni : List ℕ) (O : ℕ → ℕ → ℕ → ℚ)
    (L : List ℕ) (X : ℕ → ℕ → ℚ) (i j : ℕ)
    (h : ∀ a ∈ L, ¬inDiagBlock ni a i j) :
    L.foldl (fun Y a => assignPair ni Y a a (O a)) X i j = X i j := by
  induction L generalizing X with
  | nil => rfl
  | cons a L ih =>
    rw [List.foldl_cons, ih _ (fun b hb => h b (List.mem_cons_of_mem a hb))]
    exact if_neg (h a (List.mem_cons_self a L))

theorem buildDO_go_in (ni : List ℕ) (O : ℕ → ℕ → ℕ → ℚ)
    (L : List ℕ) (X : ℕ → ℕ → ℚ) (i j : ℕ) (u : ℕ)
    (hmem : u ∈ L) (huniq : ∀ a ∈ L, inDiagBlock ni a i j → a = u)
    (hin : inDiagBlock ni u i j) :
    L.foldl (fun Y a => assignPair ni Y a a (O a)) X i j
      = O u (i - niA ni u) (j - niA ni u) := by
  induction L generalizing X with
  | nil => cases hmem
  | cons a L ih =>
    rw [List.foldl_cons]
    by_cases hu : u ∈ L
    · exact ih _ hu (fun b hb => huniq b (List.mem_cons_of_mem a hb))
    · have hau : a = u := by
        rcases List.mem_cons.mp hmem with h | h
        · exact h.symm
        · exact absurd h hu
      subst hau
      rw [buildDO_go_notin ni O L _ i j (fun b hb hbin => by
        exact hu (huniq b (List.mem_cons_of_mem a hb) hbin ▸ hb))]
      exact if_pos hin

/-- Square pair matrix over the full projector index space. -/
abbrev PMat (n : ℕ) := Matrix (Fin n) (Fin n) ℚ

/-- View a function matrix as a `Fin`-indexed matrix of size `n`. -/
def toMat (n : ℕ) (f : ℕ → ℕ → ℚ) : PMat n :=
  Matrix.of fun i j => f i.val j.val

/-- `dO_aa`: zero-initialized, every setup's `O_ii` assigned to its diagonal
block. -/
def dOMat (ni : List ℕ) (O : ℕ → ℕ → ℕ → ℚ) : PMat ni.sum :=
  toMat ni.sum (buildDO ni O)

/-- `get_rotated_coefficients(X_aa) = np.dot(self.dB_aa, X_aa)`
(lines 262-274). -/
def getRotatedCoefficients (n : ℕ) (dB X : PMat n) : PMat n := dB * X

/-- `np.linalg.solve(A, B)`: the direct dense solve, which on an invertible
`A` returns exactly `A⁻¹ ⬝ B` (realized via the adjugate so that it stays
executable). -/
def npLinSolve (n : ℕ) (A B : PMat n) : PMat n :=
  A.det⁻¹ • (A.adjugate * B)

/-- `xO_aa = get_rotated_coefficients(dO_aa)` (line 250). -/
def updateXO (ni : List ℕ) (O : ℕ → ℕ → ℕ → ℚ) (dB : PMat ni.sum) :
    PMat ni.sum :=
  getRotatedCoefficients ni.sum dB (dOMat ni O)

/-- `dC_aa = np.linalg.solve(lhs_aa.T, rhs_aa.T).T` with
`lhs_aa = eye + xO_aa`, `rhs_aa = -dO_aa` (lines 253-255). -/
def updateDC (ni : List ℕ) (O : ℕ → ℕ → ℕ → ℚ) (dB : PMat ni.sum) :
    PMat ni.sum :=
  (npLinSolve ni.sum (1 + updateXO ni O dB)ᵀ (-(dOMat ni O))ᵀ)ᵀ

/-- `xC_aa = get_rotated_coefficients(dC_aa)` (line 258). -/
def updateXC (ni : List ℕ) (O : ℕ → ℕ → ℕ → ℚ) (dB : PMat ni.sum) :
    PMat ni.sum :=
  getRotatedCoefficients ni.sum dB (updateDC ni O dB)

theorem npLinSolve_solves {n : ℕ} (A B : PMat n) (h : A.det ≠ 0) :
    A * npLinSolve n A B = B := by
  unfold npLinSolve
  rw [Matrix.mul_smul, ← Matrix.mul_assoc, Matrix.mul_adjugate,
    Matrix.smul_mul, Matrix.one_mul, smul_smul, inv_mul_cancel₀ h, one_smul]

/-- C3: after `update`, `get_rotated_coefficients(X)` is the dense product
`dB_aa ⬝ X`; `xO_aa = dB_aa ⬝ dO_aa` with `dO_aa` block-diagonal holding each
atom's `O_ii`; the direct dense solve yields `dC_aa` with
`(I + xO_aa)ᵀ ⬝ dC_aaᵀ = -dO_aaᵀ` (equivalently
`dC_aa ⬝ (I + xO_aa) = -dO_aa`); and `xC_aa = dB_aa ⬝ dC_aa`. -/
theorem C3_projector_pair_overlap_update (ni : List ℕ) (O : ℕ → ℕ → ℕ → ℚ)
    (dB : PMat ni.sum) (hdet : (1 + updateXO ni O dB).det ≠ 0) :
    (∀ X, getRotatedCoefficients ni.sum dB X = dB * X)
    ∧ updateXO ni O dB = dB * dOMat ni O
    ∧ (∀ i j : Fin ni.sum,
        (∀ a, a < ni.length → ¬inDiagBlock ni a i.val j.val) →
        dOMat ni O i j = 0)
    ∧ (∀ a (ha : a < ni.length) (p q : ℕ), p < ni.get ⟨a, ha⟩ →
        q < ni.get ⟨a, ha⟩ →
        ∀ (hp : niA ni a + p < ni.sum) (hq : niA ni a + q < ni.sum),
        dOMat ni O ⟨niA ni a + p, hp⟩ ⟨niA ni a + q, hq⟩ = O a p q)
    ∧ (1 + updateXO ni O dB)ᵀ * (updateDC ni O dB)ᵀ = (-(dOMat ni O))ᵀ
    ∧ updateDC ni O dB * (1 + updateXO ni O dB) = -(dOMat ni O)
    ∧ updateXC ni O dB = dB * updateDC ni O dB := by
  have hdetT : ((1 + updateXO ni O dB)ᵀ).det ≠ 0 := by
    rwa [Matrix.det_transpose]
  have hsolve : (1 + updateXO ni O dB)ᵀ * (updateDC ni O dB)ᵀ
      = (-(dOMat ni O))ᵀ := by
    unfold updateDC
    rw [Matrix.transpose_transpose]
    exact npLinSolve_solves _ _ hdetT
  refine ⟨fun X => rfl, rfl, ?_, ?_, hsolve, ?_, rfl⟩
  · intro i j h
    unfold dOMat toMat buildDO
    exact buildDO_go_notin ni O _ _ i.val j.val
      (fun a ha => h a (List.mem_range.mp ha))
  · intro a ha p q hp hq hpn hqn
    have e1 := niA_succ ni a ha
    have hin : inDiagBlock ni a (niA ni a + p) (niA ni a + q) := by
      unfold inDiagBlock
      omega
    have huniq : ∀ b ∈ List.range ni.length,
        inDiagBlock ni b (niA ni a + p) (niA ni a + q) → b = a := by
      intro b hb hbin
      exact owner_unique (f := niA ni) (P := ni.length)
        (fun x y hxy _ => niA_mono ni hxy)
        (List.mem_range.mp hb) ha hbin.1 hbin.2.1 hin.1 hin.2.1
    unfold dOMat toMat buildDO
    rw [Matrix.of_apply,
      buildDO_go_in ni O _ _ _ _ a (List.mem_range.mpr ha) huniq hin,
      Nat.add_sub_cancel_left, Nat.add_sub_cancel_left]
  · have := congrArg Matrix.transpose hsolve
    rwa [Matrix.transpose_mul, Matrix.transpose_transpose,
      Matrix.transpose_transpose] at this

theorem dOMat_zero_blocks : dOMat [1] (fun _ _ _ => (0 : ℚ)) = 0 := by
  ext i j
  simp [dOMat, toMat, buildDO]
  decide

theorem updateXO_zero_blocks :
    updateXO [1] (fun _ _ _ => (0 : ℚ)) 1 = 0 := by
  rw [updateXO, getRotatedCoefficients, dOMat_zero_blocks, Matrix.mul_zero]

/-- Witness for C3: a single atom with one projector and vanishing `O_ii`,
where `I + xO_aa` is the identity. -/
theorem C3_projector_pair_overlap_update_witness :
    ((1 + updateXO [1] (fun _ _ _ => (0 : ℚ)) 1).det ≠ 0) ∧
    ((∀ X, getRotatedCoefficients [1].sum 1 X = 1 * X)
    ∧ updateXO [1] (fun _ _ _ => (0 : ℚ)) 1
        = 1 * dOMat [1] (fun _ _ _ => (0 : ℚ))
    ∧ (∀ i j : Fin [1].sum,
        (∀ a, a < [1].length → ¬inDiagBlock [1] a i.val j.val) →
        dOMat [1] (fun _ _ _ => (0 : ℚ)) i j = 0)
    ∧ (∀ a (ha : a < [1].length) (p q : ℕ), p < [1].get ⟨a, ha⟩ →
        q < [1].get ⟨a, ha⟩ →
        ∀ (hp : niA [1] a + p < [1].sum) (hq : niA [1] a + q < [1].sum),
        dOMat [1] (fun _ _ _ => (0 : ℚ)) ⟨niA [1] a + p, hp⟩
          ⟨niA [1] a + q, hq⟩ = 0)
    ∧ (1 + updateXO [1] (fun _ _ _ => (0 : ℚ)) 1)ᵀ *
        (updateDC [1] (fun _ _ _ => (0 : ℚ)) 1)ᵀ
        = (-(dOMat [1] (fun _ _ _ => (0 : ℚ))))ᵀ
    ∧ updateDC [1] (fun _ _ _ => (0 : ℚ)) 1 *
        (1 + updateXO [1] (fun _ _ _ => (0 : ℚ)) 1)
        = -(dOMat [1] (fun _ _ _ => (0 : ℚ)))
    ∧ updateXC [1] (fun _ _ _ => (0 : ℚ)) 1
        = 1 * updateDC [1] (fun _ _ _ => (0 : ℚ)) 1) := by
  have hdet : (1 + updateXO [1] (fun _ _ _ => (0 : ℚ)) 1).det ≠ 0 := by
    rw [updateXO_zero_blocks, add_zero, Matrix.det_one]
    norm_num
  exact ⟨hdet,
    C3_projector_pair_overlap_update [1] (fun _ _ _ => (0 : ℚ)) 1 hdet⟩

/-! ### Serial diagonalizer (`eigensolvers/eigensolver.py` lines 25-37, 64-71)

`LapackDiagonalizer._diagonalize` runs LAPACK only on the worker with grid
rank 0 and band rank 0; everyone else returns status 0.
`BaseDiagonalizer.diagonalize` raises `RuntimeError('Failed to diagonalize')`
on a nonzero status, and otherwise distributes the eigenvalues over the band
communicator and broadcasts eigenvectors and eigenvalues, so the collective
outcome of every worker `(g, b)` is the root's eigenvector matrix together
with band slice `b` of the root's eigenvalue array.  The in-place LAPACK
eigendecomposition is abstracted by its status `status` and output maps
`vecs` / `vals`. -/

/-- Eigenvalue array. -/
def EpsArray : Type := ℕ → ℚ

/-- `LapackDiagonalizer._diagonalize` on the worker with grid rank `g` and
band rank `b`: the returned status, and a flag recording whether the dense
eigendecomposition was actually performed there. -/
def lapackDiagonalize (status : ℤ) (g b : ℕ) : ℤ × Bool :=
  if g = 0 ∧ b = 0 then (status, true) else (0, false)

/-- `RuntimeError('Failed to diagonalize: %d' % info)`. -/
structure DiagError where
  info : ℤ

/-- Modelled from the spec: `BandDescriptor.distribute` is not among the
sources (only its call site is); per the spec, each band rank owns a
contiguous block of `mynbands` bands, so band rank `b` receives the slice
starting at `b * mynbands` of the full eigenvalue array. -/
def bdDistribute (mynbands : ℕ) (epsN : EpsArray) (b : ℕ) : EpsArray :=
  fun m => epsN (b * mynbands + m)

/-- `BaseDiagonalizer.diagonalize` as a collective: raises iff the root's
`_diagonalize` status is nonzero (all other statuses are 0); on success the
distribute/broadcast chain leaves every worker `(g, b)` with the root's
eigenvector matrix and its band slice of the root's eigenvalues. -/
def baseDiagonalize (n : ℕ) (status : ℤ) (vecs : PMat n → PMat n)
    (vals : PMat n → EpsArray) (mynbands : ℕ) (H : PMat n) :
    Except DiagError (ℕ × ℕ → PMat n × EpsArray) :=
  if (lapackDiagonalize status 0 0).1 ≠ 0 then
    .error ⟨(lapackDiagonalize status 0 0).1⟩
  else
    .ok fun w => (vecs H, bdDistribute mynbands (vals H) w.2)

/-- C6: in the serial diagonalizer only the worker with grid rank 0 and band
rank 0 performs the dense eigendecomposition, every other worker obtains
status 0; a nonzero status from the dense solve makes `diagonalize` raise the
fatal `Failed to diagonalize` error (it produces no result, and there is no
retry path); on zero status every worker ends with the root's eigenvector
matrix (bitwise the same on all workers) and with the eigenvalue slice of its
band rank, i.e. all workers sharing the k-point hold the same broadcast
result. -/
theorem C6_serial_diagonalizer_contract (n : ℕ) (status : ℤ)
    (vecs : PMat n → PMat n) (vals : PMat n → EpsArray) (mynbands : ℕ)
    (H : PMat n) :
    (∀ g b, ((lapackDiagonalize status g b).2 = true ↔ g = 0 ∧ b = 0)
      ∧ (¬(g = 0 ∧ b = 0) → (lapackDiagonalize status g b).1 = 0))
    ∧ (status ≠ 0 →
        baseDiagonalize n status vecs vals mynbands H = .error ⟨status⟩)
    ∧ (status = 0 →
        baseDiagonalize n status vecs vals mynbands H
          = .ok fun w => (vecs H, bdDistribute mynbands (vals H) w.2))
    ∧ (∀ R, baseDiagonalize n status vecs vals mynbands H = .ok R →
        (∀ w w2, (R w).1 = (R w2).1)
        ∧ (∀ w w2, w.2 = w2.2 → R w = R w2)
        ∧ (∀ w, (R w).2 = bdDistribute mynbands (vals H) w.2)) := by
  refine ⟨?_, ?_, ?_, ?_⟩
  · intro g b
    constructor
    · unfold lapackDiagonalize
      split
      · simp_all
      · simp_all
    · intro h
      unfold lapackDiagonalize
      rw [if_neg h]
  · intro h
    unfold baseDiagonalize lapackDiagonalize
    simp [h]
  · intro h
    unfold baseDiagonalize lapackDiagonalize
    simp [h]
  · intro R hR
    by_cases h : status = 0
    · have h3 : baseDiagonalize n status vecs vals mynbands H
          = .ok fun w => (vecs H, bdDistribute mynbands (vals H) w.2) := by
        unfold baseDiagonalize lapackDiagonalize
        simp [h]
      rw [h3] at hR
      have h4 := Except.ok.inj hR
      subst h4
      refine ⟨fun w w2 => rfl, ?_, fun w => rfl⟩
      intro w w2 h2
      simp [h2]
    · have h3 : baseDiagonalize n status vecs vals mynbands H
          = .error ⟨status⟩ := by
        unfold baseDiagonalize lapackDiagonalize
        simp [h]
      rw [h3] at hR
      cases hR

/-! ### Subspace-diagonalization band check (`eigensolvers/__init__.py`
lines 84-117)

`Eigensolver.diagonalize` starts its timer and immediately raises
`RuntimeError('Bands: %d != %d' % (self.nbands, kpt.nbands))` when the
solver's configured band count disagrees with the k-point's, before the
kinetic/potential application, the `r2k` matrix build, the dense
`diagonalize` call, or any of the `gemm` rotations of `psit_nG`/`P_uni`.
The body is embedded as the ordered list of effects it performs. -/

/-- The operations of `Eigensolver.diagonalize`, in source order. -/
inductive EigEffect where
  | timerStart
  | kinApply
  | addLocalPotential
  | applyNonLocal
  | r2kCall
  | atomicCorrections
  | commSumH
  | maskSubspace
  | denseDiagonalize
  | broadcastResult
  | rotatePsit
  | rotateHtpsit
  | rotateProjections
  | timerStop
  deriving DecidableEq

/-- The `RuntimeError` payload: the solver's (`expected`) and the k-point's
(`actual`) band counts. -/
structure BandsMismatch where
  expected : ℕ
  actual : ℕ
  deriving DecidableEq

/-- The message `'Bands: %d != %d' % (self.nbands, kpt.nbands)`. -/
def bandsMessage (e : BandsMismatch) : String :=
  "Bands: " ++ toString e.expected ++ " != " ++ toString e.actual

/-- `Eigensolver.diagonalize(hamiltonian, kpt)`: the effect trace it
executes together with its outcome.  `hybrid` selects the optional
occupied/unoccupied masking branch. -/
def eigDiagonalize (nbands kptNbands : ℕ) (hybrid : Bool) :
    List EigEffect × Except BandsMismatch Unit :=
  if nbands ≠ kptNbands then
    ([.timerStart], .error ⟨nbands, kptNbands⟩)
  else
    ([.timerStart, .kinApply, .addLocalPotential, .applyNonLocal, .r2kCall,
        .atomicCorrections, .commSumH]
      ++ (if hybrid then [.maskSubspace] else [])
      ++ [.denseDiagonalize, .broadcastResult, .rotatePsit, .rotateHtpsit,
        .rotateProjections, .timerStop], .ok ())

/-- C7: whenever the solver's configured band count differs from the
k-point's, subspace diagonalization raises the fatal configuration error
immediately — the trace contains no Hamiltonian application, dense
diagonalization or wavefunction mutation — and the error names both the
expected and the actual band count in its message. -/
theorem C7_band_count_mismatch_fatal (nbands kptNbands : ℕ) (hybrid : Bool)
    (h : nbands ≠ kptNbands) :
    (eigDiagonalize nbands kptNbands hybrid).2
      = .error ⟨nbands, kptNbands⟩
    ∧ bandsMessage ⟨nbands, kptNbands⟩
      = "Bands: " ++ toString nbands ++ " != " ++ toString kptNbands
    ∧ (eigDiagonalize nbands kptNbands hybrid).1 = [.timerStart]
    ∧ (∀ e ∈ (eigDiagonalize nbands kptNbands hybrid).1,
        e ≠ .kinApply ∧ e ≠ .addLocalPotential ∧ e ≠ .applyNonLocal ∧
        e ≠ .denseDiagonalize ∧ e ≠ .rotatePsit ∧ e ≠ .rotateHtpsit ∧
        e ≠ .rotateProjections) := by
  have he : eigDiagonalize nbands kptNbands hybrid
      = ([.timerStart], .error ⟨nbands, kptNbands⟩) := by
    unfold eigDiagonalize
    rw [if_pos h]
  rw [he]
  refine ⟨rfl, rfl, rfl, ?_⟩
  intro e he2
  rcases List.mem_singleton.mp he2 with rfl
  exact ⟨by decide, by decide, by decide, by decide, by decide, by decide,
    by decide⟩

/-- Witness for C7: solver configured for 3 bands, k-point holding 2. -/
theorem C7_band_count_mismatch_fatal_witness :
    (3 ≠ 2) ∧
    ((eigDiagonalize 3 2 false).2 = .error ⟨3, 2⟩
    ∧ bandsMessage ⟨3, 2⟩ = "Bands: " ++ toString 3 ++ " != " ++ toString 2
    ∧ (eigDiagonalize 3 2 false).1 = [.timerStart]
    ∧ (∀ e ∈ (eigDiagonalize 3 2 false).1,
        e ≠ .kinApply ∧ e ≠ .addLocalPotential ∧ e ≠ .applyNonLocal ∧
        e ≠ .denseDiagonalize ∧ e ≠ .rotatePsit ∧ e ≠ .rotateHtpsit ∧
        e ≠ .rotateProjections)) :=
  ⟨by decide, C7_band_count_mismatch_fatal 3 2 false (by decide)⟩

/-! ### `PoissonSolver.solve` (`gridpaw/poisson_solver.py` lines 51-82)

    niter = 1
    while self.iterate2(self.step) > eps and niter < 300:
        niter += 1
    if niter == 300:
        charge = num.sum(rho.flat) * self.dv
        print 'CHARGE:', charge
        if charge > 1e-6: ...hint...
        raise RuntimeError('Poisson solver did not converge!')
    ...
    return niter

`errs k` stands for the residual returned by the `(k+1)`-st call of
`iterate2` (the multigrid V-cycle is opaque to this claim); the check with
`niter = m` performs call number `m`, so the loop always evaluates the `and`
left operand first. -/

/-- The diagnostic context printed before
`RuntimeError('Poisson solver did not converge!')`: the integrated charge and
whether the charged-system hint was shown. -/
structure PoissonFailure where
  charge : ℚ
  hint : Bool
  deriving DecidableEq

/-- The `while` loop of `solve`, returning the final value of `niter` when
entered with counter `niter`. -/
def solveLoop (errs : ℕ → ℚ) (eps : ℚ) (niter : ℕ) : ℕ :=
  if h : errs (niter - 1) > eps ∧ niter < 300 then solveLoop errs eps (niter + 1)
  else niter
termination_by 300 - niter
decreasing_by omega

/-- `PoissonSolver.solve`: runs the capped iteration loop, raising the
convergence failure (with its printed diagnostics) when `niter` hits 300 and
returning `niter` otherwise. -/
def poissonSolve (rho : List ℚ) (dv : ℚ) (errs : ℕ → ℚ) (eps : ℚ) :
    Except PoissonFailure ℕ :=
  let niter := solveLoop errs eps 1
  if niter = 300 then
    .error ⟨rho.sum * dv, decide (rho.sum * dv > 1 / 1000000)⟩
  else .ok niter

theorem solveLoop_eq_300_iff (errs : ℕ → ℚ) (eps : ℚ) :
    ∀ m n, n + m = 300 → 1 ≤ n →
      (solveLoop errs eps n = 300 ↔
        ∀ k, n - 1 ≤ k → k < 299 → errs k > eps) := by
  intro m
  induction m with
  | zero =>
    intro n hm hn
    have hn300 : n = 300 := by omega
    subst hn300
    rw [solveLoop]
    constructor
    · intro _ k hk1 hk2
      omega
    · intro _
      rw [dif_neg (by omega)]
  | succ m ih =>
    intro n hm hn
    have hlt : n < 300 := by omega
    by_cases hc : errs (n - 1) > eps
    · rw [solveLoop, dif_pos ⟨hc, hlt⟩]
      rw [ih (n + 1) (by omega) (by omega)]
      constructor
      · intro h k hk1 hk2
        rcases Nat.lt_or_ge k n with hkn | hkn
        · have hk : k = n - 1 := by omega
          rw [hk]
          exact hc
        · exact h k (by omega) hk2
      · intro h k hk1 hk2
        exact h k (by omega) hk2
    · rw [solveLoop, dif_neg (by tauto)]
      constructor
      · intro h
        omega
      · intro h
        exact absurd (h (n - 1) (le_refl _) (by omega)) hc

theorem solveLoop_first_convergence (errs : ℕ → ℚ) (eps : ℚ) :
    ∀ m n, n + m = 300 → 1 ≤ n →
      ∀ j, n - 1 ≤ j → j < 299 → errs j ≤ eps →
        (∀ k, n - 1 ≤ k → k < j → errs k > eps) →
        solveLoop errs eps n = j + 1 := by
  intro m
  induction m with
  | zero =>
    intro n hm hn j hj1 hj2 _ _
    omega
  | succ m ih =>
    intro n hm hn j hj1 hj2 hconv hmin
    have hlt : n < 300 := by omega
    by_cases hj : j = n - 1
    · subst hj
      rw [solveLoop, dif_neg (by
        rintro ⟨hc, -⟩
        exact absurd hconv (not_le.mpr hc))]
      omega
    · have hc : errs (n - 1) > eps := hmin (n - 1) (le_refl _) (by omega)
      rw [solveLoop, dif_pos ⟨hc, hlt⟩]
      exact ih (n + 1) (by omega) (by omega) j (by omega) hj2 hconv
        (fun k hk1 hk2 => hmin k (by omega) hk2)

/-- C9 counterexample: with residuals that stay at 1 for the first 299 calls
of `iterate2` and drop to 0 at call 300 (tolerance `1/2`), the residual does
fall to the tolerance within the 300-iteration cap, yet `solve` still raises
`Poisson solver did not converge!`.  So the error is **not** raised exactly
when the residual has not fallen to `eps` within 300 iterations. -/
theorem C9_poisson_convergence_counterexample :
    (∃ e, poissonSolve [1] 1 (fun k => if k < 299 then 1 else 0) (1 / 2)
      = .error e)
    ∧ ¬(∀ k, k < 300 → (fun k => if k < 299 then (1 : ℚ) else 0) k > 1 / 2) := by
  constructor
  · have h300 : solveLoop (fun k => if k < 299 then (1 : ℚ) else 0) (1 / 2) 1
        = 300 := by
      rw [solveLoop_eq_300_iff _ _ 299 1 (by omega) (le_refl 1)]
      intro k _ hk2
      rw [if_pos hk2]
      norm_num
    refine ⟨⟨(1 : ℚ), decide ((1 : ℚ) > 1 / 1000000)⟩, ?_⟩
    unfold poissonSolve
    rw [h300, if_pos rfl]
    norm_num
  · intro h
    have h299 := h 299 (by omega)
    simp only [lt_irrefl, if_neg] at h299
    norm_num at h299

/-- C9 amended: `solve` raises the `did not converge` error exactly when the
first 299 calls of `iterate2` all leave the residual above `eps` (reaching
the tolerance only at the discarded 300th call still raises); the raised
error carries the integrated charge `sum(rho) * dv` and the hint flag set
exactly when that charge exceeds `1e-6`; and when the residual first reaches
`eps` at call `j + 1` with `j + 1 ≤ 299`, `solve` returns the iteration count
`j + 1` without error. -/
theorem C9_poisson_convergence_amended (rho : List ℚ) (dv : ℚ)
    (errs : ℕ → ℚ) (eps : ℚ) :
    ((∃ e, poissonSolve rho dv errs eps = .error e) ↔
      ∀ k, k < 299 → errs k > eps)
    ∧ (∀ e, poissonSolve rho dv errs eps = .error e →
        e.charge = rho.sum * dv
        ∧ (e.hint = true ↔ rho.sum * dv > 1 / 1000000))
    ∧ (∀ j, j < 299 → errs j ≤ eps → (∀ k, k < j → errs k > eps) →
        poissonSolve rho dv errs eps = .ok (j + 1)) := by
  have hiff := solveLoop_eq_300_iff errs eps 299 1 (by omega) (le_refl 1)
  refine ⟨?_, ?_, ?_⟩
  · constructor
    · rintro ⟨e, he⟩
      unfold poissonSolve at he
      by_cases h : solveLoop errs eps 1 = 300
      · intro k hk
        exact (hiff.mp h) k (by omega) hk
      · rw [if_neg h] at he
        cases he
    · intro h
      have h300 : solveLoop errs eps 1 = 300 :=
        hiff.mpr (fun k hk1 hk2 => h k hk2)
      refine ⟨⟨rho.sum * dv, decide (rho.sum * dv > 1 / 1000000)⟩, ?_⟩
      unfold poissonSolve
      rw [h300, if_pos rfl]
  · intro e he
    unfold poissonSolve at he
    by_cases h : solveLoop errs eps 1 = 300
    · rw [h, if_pos rfl] at he
      have h2 := Except.error.inj he
      rw [← h2]
      constructor
      · rfl
      · simp
    · rw [if_neg h] at he
      cases he
  · intro j hj hconv hmin
    have hval : solveLoop errs eps 1 = j + 1 :=
      solveLoop_first_convergence errs eps 299 1 (by omega) (le_refl 1) j
        (by omega) hj hconv (fun k hk1 hk2 => hmin k hk2)
    unfold poissonSolve
    rw [hval, if_neg (by omega)]

/-! ### Radial grids and `truncate` (`grid_descriptor.py` lines 559-727)

Aliasing matters here: numpy basic slicing (`self.r_g[:gcut]`) returns a
*view* on the parent's buffer, while arithmetic (`4 * pi * r_g**2 * dr_g`,
`h * np.arange(ng)`, ...) allocates fresh arrays.  Arrays are therefore
modelled through an explicit buffer store; an array reference names its
buffer and its length (prefix views share the buffer id with a shorter
length).  Values are exact rationals, and the float constant `math.pi` is
a parameter `piFl` (in IEEE doubles `pi` *is* a rational). -/

/-- The store of live numpy buffers: contents per buffer id, next fresh id. -/
structure Store where
  bufs : ℕ → List ℚ
  next : ℕ

/-- A numpy array or prefix view: buffer id plus length. -/
structure ArrRef where
  buf : ℕ
  len : ℕ

/-- Allocate a fresh buffer holding `v`. -/
def alloc (s : Store) (v : List ℚ) : Store × ArrRef :=
  (⟨Function.update s.bufs s.next v, s.next + 1⟩, ⟨s.next, v.length⟩)

/-- The values seen through an array reference. -/
def readArr (s : Store) (r : ArrRef) : List ℚ := (s.bufs r.buf).take r.len

/-- Element assignment `arr[i] = v` through a (possibly shared) reference. -/
def writeArr (s : Store) (r : ArrRef) (i : ℕ) (v : ℚ) : Store :=
  if i < r.len then
    ⟨Function.update s.bufs r.buf ((s.bufs r.buf).set i v), s.next⟩
  else s

/-- `arr[-1]` of a numpy array. -/
def lastValue (l : List ℚ) : ℚ := l.getD (l.length - 1) 0

/-- `self.dv_g = 4 * pi * r_g**2 * dr_g` (line 574). -/
def dvValues (piFl : ℚ) (r dr : List ℚ) : List ℚ :=
  List.zipWith (fun x y => 4 * piFl * x ^ 2 * y) r dr

/-- The attributes set by `RadialGridDescriptor.__init__` (lines 561-574). -/
structure RadialGrid where
  r_g : ArrRef
  dr_g : ArrRef
  dv_g : ArrRef
  rcut : ℚ
  ng : ℕ

/-- `RadialGridDescriptor.__init__(self, r_g, dr_g)`: keeps the *given*
references and allocates only the derived `dv_g`. -/
def rgdInit (s : Store) (piFl : ℚ) (r dr : ArrRef) : Store × RadialGrid :=
  let p := alloc s (dvValues piFl (readArr s r) (readArr s dr))
  (p.1, ⟨r, dr, p.2, lastValue (readArr s r), r.len⟩)

/-- `EquidistantRadialGridDescriptor` state (lines 637-646). -/
structure EqRadialGrid extends RadialGrid where
  h : ℚ

/-- `EquidistantRadialGridDescriptor.__init__(h, ng)`: fresh
`r_g = h * arange(ng)` and `dr_g = ones(ng) * h`. -/
def eqBuild (s : Store) (piFl h : ℚ) (ng : ℕ) : Store × EqRadialGrid :=
  let pr := alloc s ((List.range ng).map (fun g : ℕ => h * (g : ℚ)))
  let pd := alloc pr.1 ((List.range ng).map (fun _ : ℕ => h))
  let pb := rgdInit pd.1 piFl pr.2 pd.2
  (pb.1, ⟨pb.2, h⟩)

/-- `EquidistantRadialGridDescriptor.truncate(gmax)` (lines 654-655): a
fresh equidistant grid with the same spacing and `gmax` points. -/
def eqTruncate (s : Store) (st : EqRadialGrid) (piFl : ℚ) (gmax : ℕ) :
    Store × EqRadialGrid :=
  eqBuild s piFl st.h gmax

/-- `AERadialGridDescriptor` state (lines 667-693). -/
structure AERadialGrid extends RadialGrid where
  d2gdr2 : ArrRef
  beta : ℚ
  N : ℕ

/-- `AERadialGridDescriptor.__init__(beta, N)`: fresh
`r_g = beta * g / (N - g)`, `dr_g = beta * N / (N - g)**2`,
`d2gdr2 = -2 * N * beta / (beta + r_g)**3` (float arithmetic, so the
subtractions live in `ℚ`). -/
def aeBuild (s : Store) (piFl beta : ℚ) (N : ℕ) : Store × AERadialGrid :=
  let rList := (List.range N).map (fun g : ℕ => beta * (g : ℚ) / ((N : ℚ) - (g : ℚ)))
  let drList := (List.range N).map (fun g : ℕ => beta * (N : ℚ) / ((N : ℚ) - (g : ℚ)) ^ 2)
  let pr := alloc s rList
  let pd := alloc pr.1 drList
  let pb := rgdInit pd.1 piFl pr.2 pd.2
  let p2 := alloc pb.1 (rList.map (fun r => -2 * (N : ℚ) * beta / (beta + r) ^ 3))
  (p2.1, ⟨pb.2, p2.2, beta, N⟩)

/-- `AERadialGridDescriptor.truncate(gcut)` (lines 701-711): `r_g`, `dr_g`
and `d2gdr2` of the sub-grid are *views* (`self.r_g[:gcut]`, ...) on the
parent's buffers; re-running `RadialGridDescriptor.__init__` allocates only
a fresh `dv_g` and re-derives `rcut` from the view. -/
def aeTruncate (s : Store) (st : AERadialGrid) (piFl : ℚ) (gcut : ℕ) :
    Store × AERadialGrid :=
  let rRef : ArrRef := ⟨st.r_g.buf, gcut⟩
  let drRef : ArrRef := ⟨st.dr_g.buf, gcut⟩
  let pb := rgdInit s piFl rRef drRef
  let d2Ref : ArrRef := ⟨st.d2gdr2.buf, gcut⟩
  (pb.1, ⟨pb.2, d2Ref, st.beta, st.N⟩)

theorem readArr_writeArr_ne {s : Store} {r r2 : ArrRef} (h : r.buf ≠ r2.buf)
    (i : ℕ) (v : ℚ) : readArr (writeArr s r i v) r2 = readArr s r2 := by
  unfold writeArr readArr
  split
  · exact congrArg (List.take r2.len) (Function.update_noteq (Ne.symm h) _ _)
  · rfl

theorem readArr_alloc_ne {s : Store} (v : List ℚ) {r : ArrRef}
    (h : r.buf ≠ s.next) : readArr (alloc s v).1 r = readArr s r := by
  unfold alloc readArr
  exact congrArg (List.take r.len) (Function.update_noteq h _ _)

theorem readArr_take_view {s : Store} (b lenP gcut : ℕ) (h : gcut ≤ lenP) :
    readArr s ⟨b, gcut⟩ = (readArr s ⟨b, lenP⟩).take gcut := by
  unfold readArr
  rw [List.take_take, Nat.min_eq_left h]

theorem eqBuild_layout (s : Store) (piFl h : ℚ) (ng : ℕ) :
    (eqBuild s piFl h ng).2.r_g = ⟨s.next, ng⟩
    ∧ (eqBuild s piFl h ng).2.dr_g = ⟨s.next + 1, ng⟩
    ∧ (eqBuild s piFl h ng).2.dv_g.buf = s.next + 2
    ∧ (eqBuild s piFl h ng).1.next = s.next + 3 := by
  refine ⟨?_, ?_, rfl, rfl⟩
  · simp only [eqBuild, rgdInit, alloc]
    congr 1
    rw [List.length_map, List.length_range]
  · simp only [eqBuild, rgdInit, alloc]
    congr 1
    rw [List.length_map, List.length_range]

theorem eqBuild_values (s : Store) (piFl h : ℚ) (ng : ℕ) :
    readArr (eqBuild s piFl h ng).1 (eqBuild s piFl h ng).2.r_g
      = (List.range ng).map (fun g : ℕ => h * (g : ℚ))
    ∧ readArr (eqBuild s piFl h ng).1 (eqBuild s piFl h ng).2.dr_g
      = (List.range ng).map (fun _ : ℕ => h)
    ∧ (eqBuild s piFl h ng).2.rcut
      = lastValue ((List.range ng).map (fun g : ℕ => h * (g : ℚ)))
    ∧ (eqBuild s piFl h ng).2.ng = ng := by
  refine ⟨?_, ?_, ?_, ?_⟩
  · simp only [eqBuild, rgdInit, alloc, readArr, Function.update_apply]
    split_ifs with h1 h2 h3 <;>
      first
      | omega
      | rw [List.take_of_length_le (by rw [List.length_map, List.length_range])]
  · simp only [eqBuild, rgdInit, alloc, readArr, Function.update_apply]
    split_ifs with h1 h2 h3 <;>
      first
      | omega
      | rw [List.take_of_length_le (by rw [List.length_map, List.length_range])]
  · simp only [eqBuild, rgdInit, alloc, readArr, Function.update_apply]
    split_ifs with h1 h2 h3 <;>
      first
      | omega
      | rw [List.take_of_length_le (by rw [List.length_map, List.length_range])]
  · simp only [eqBuild, rgdInit, alloc]
    rw [List.length_map, List.length_range]

theorem aeBuild_layout (s : Store) (piFl beta : ℚ) (N : ℕ) :
    (aeBuild s piFl beta N).2.r_g = ⟨s.next, N⟩
    ∧ (aeBuild s piFl beta N).2.dr_g = ⟨s.next + 1, N⟩
    ∧ (aeBuild s piFl beta N).2.dv_g.buf = s.next + 2
    ∧ (aeBuild s piFl beta N).2.d2gdr2 = ⟨s.next + 3, N⟩
    ∧ (aeBuild s piFl beta N).1.next = s.next + 4 := by
  refine ⟨?_, ?_, rfl, ?_, rfl⟩
  · simp only [aeBuild, rgdInit, alloc]
    congr 1
    rw [List.length_map, List.length_range]
  · simp only [aeBuild, rgdInit, alloc]
    congr 1
    rw [List.length_map, List.length_range]
  · simp only [aeBuild, rgdInit, alloc]
    congr 1
    rw [List.length_map, List.length_map, List.length_range]

theorem aeBuild_values (s : Store) (piFl beta : ℚ) (N : ℕ) :
    readArr (aeBuild s piFl beta N).1 (aeBuild s piFl beta N).2.r_g
      = (List.range N).map (fun g : ℕ => beta * (g : ℚ) / ((N : ℚ) - (g : ℚ)))
    ∧ readArr (aeBuild s piFl beta N).1 (aeBuild s piFl beta N).2.dr_g
      = (List.range N).map
          (fun g : ℕ => beta * (N : ℚ) / ((N : ℚ) - (g : ℚ)) ^ 2)
    ∧ (aeBuild s piFl beta N).2.rcut
      = lastValue ((List.range N).map
          (fun g : ℕ => beta * (g : ℚ) / ((N : ℚ) - (g : ℚ))))
    ∧ (aeBuild s piFl beta N).2.ng = N := by
  refine ⟨?_, ?_, ?_, ?_⟩
  · simp only [aeBuild, rgdInit, alloc, readArr, Function.update_apply]
    split_ifs with h1 h2 h3 h4 <;>
      first
      | omega
      | rw [List.take_of_length_le (by rw [List.length_map, List.length_range])]
  · simp only [aeBuild, rgdInit, alloc, readArr, Function.update_apply]
    split_ifs with h1 h2 h3 h4 <;>
      first
      | omega
      | rw [List.take_of_length_le (by rw [List.length_map, List.length_range])]
  · simp only [aeBuild, rgdInit, alloc, readArr, Function.update_apply]
    split_ifs with h1 h2 h3 h4 <;>
      first
      | omega
      | rw [List.take_of_length_le (by rw [List.length_map, List.length_range])]
  · simp only [aeBuild, rgdInit, alloc]
    rw [List.length_map, List.length_range]

theorem aeTruncate_layout (s : Store) (st : AERadialGrid) (piFl : ℚ)
    (gcut : ℕ) :
    (aeTruncate s st piFl gcut).2.r_g = ⟨st.r_g.buf, gcut⟩
    ∧ (aeTruncate s st piFl gcut).2.dr_g = ⟨st.dr_g.buf, gcut⟩
    ∧ (aeTruncate s st piFl gcut).2.d2gdr2 = ⟨st.d2gdr2.buf, gcut⟩
    ∧ (aeTruncate s st piFl gcut).2.dv_g.buf = s.next
    ∧ (aeTruncate s st piFl gcut).1.next = s.next + 1
    ∧ (aeTruncate s st piFl gcut).2.ng = gcut :=
  ⟨rfl, rfl, rfl, rfl, rfl, rfl⟩

theorem aeTruncate_reads (s : Store) (st : AERadialGrid) (piFl : ℚ)
    (gcut : ℕ) (hb : st.r_g.buf < s.next) (hl : gcut ≤ st.r_g.len)
    (hb2 : st.dr_g.buf < s.next) (hl2 : gcut ≤ st.dr_g.len)
    (hb3 : st.d2gdr2.buf < s.next) (hl3 : gcut ≤ st.d2gdr2.len) :
    readArr (aeTruncate s st piFl gcut).1 (aeTruncate s st piFl gcut).2.r_g
      = (readArr s st.r_g).take gcut
    ∧ readArr (aeTruncate s st piFl gcut).1
        (aeTruncate s st piFl gcut).2.dr_g
      = (readArr s st.dr_g).take gcut
    ∧ readArr (aeTruncate s st piFl gcut).1
        (aeTruncate s st piFl gcut).2.d2gdr2
      = (readArr s st.d2gdr2).take gcut
    ∧ (aeTruncate s st piFl gcut).2.rcut
      = lastValue ((readArr s st.r_g).take gcut) := by
  have er : readArr s (⟨st.r_g.buf, gcut⟩ : ArrRef)
      = (readArr s st.r_g).take gcut := readArr_take_view _ _ _ hl
  have ed : readArr s (⟨st.dr_g.buf, gcut⟩ : ArrRef)
      = (readArr s st.dr_g).take gcut := readArr_take_view _ _ _ hl2
  have e2 : readArr s (⟨st.d2gdr2.buf, gcut⟩ : ArrRef)
      = (readArr s st.d2gdr2).take gcut := readArr_take_view _ _ _ hl3
  obtain ⟨l1, l2, l3, -, -, -⟩ := aeTruncate_layout s st piFl gcut
  refine ⟨?_, ?_, ?_, ?_⟩
  · rw [show (aeTruncate s st piFl gcut).1 = (alloc s _).1 from rfl,
      readArr_alloc_ne _ (by exact Nat.ne_of_lt hb), l1, er]
  · rw [show (aeTruncate s st piFl gcut).1 = (alloc s _).1 from rfl,
      readArr_alloc_ne _ (by exact Nat.ne_of_lt hb2), l2, ed]
  · rw [show (aeTruncate s st piFl gcut).1 = (alloc s _).1 from rfl,
      readArr_alloc_ne _ (by exact Nat.ne_of_lt hb3), l3, e2]
  · rw [show (aeTruncate s st piFl gcut).2.rcut
        = lastValue (readArr s (⟨st.r_g.buf, gcut⟩ : ArrRef)) from rfl, er]

theorem eqBuild_bufs (s : Store) (piFl h : ℚ) (ng : ℕ) :
    (eqBuild s piFl h ng).2.r_g.buf = s.next
    ∧ (eqBuild s piFl h ng).2.dr_g.buf = s.next + 1
    ∧ (eqBuild s piFl h ng).2.dv_g.buf = s.next + 2 :=
  ⟨rfl, rfl, rfl⟩

theorem aeBuild_bufs (s : Store) (piFl beta : ℚ) (N : ℕ) :
    (aeBuild s piFl beta N).2.r_g.buf = s.next
    ∧ (aeBuild s piFl beta N).2.dr_g.buf = s.next + 1
    ∧ (aeBuild s piFl beta N).2.dv_g.buf = s.next + 2
    ∧ (aeBuild s piFl beta N).2.d2gdr2.buf = s.next + 3 :=
  ⟨rfl, rfl, rfl, rfl⟩

theorem readArr_writeArr_shared (s : Store) (b lc lp i : ℕ) (v : ℚ)
    (hi : i < lc) :
    readArr (writeArr s ⟨b, lc⟩ i v) ⟨b, lp⟩ = (readArr s ⟨b, lp⟩).set i v := by
  unfold writeArr readArr
  rw [if_pos hi]
  show (Function.update s.bufs b ((s.bufs b).set i v) b).take lp = _
  rw [Function.update_same, List.set_take]

/-- Truncation produced fully independent arrays: different buffers, and
element assignment through either object never changes what the other
reads. -/
def independentViews (s2 : Store) (tr par : RadialGrid) : Prop :=
  ∀ rc ∈ [tr.r_g, tr.dr_g, tr.dv_g], ∀ rp ∈ [par.r_g, par.dr_g, par.dv_g],
    rc.buf ≠ rp.buf
    ∧ (∀ i v, readArr (writeArr s2 rc i v) rp = readArr s2 rp)
    ∧ (∀ i v, readArr (writeArr s2 rp i v) rc = readArr s2 rc)

def cexStore0 : Store := ⟨fun _ => [], 0⟩

def cexParent : Store × AERadialGrid := aeBuild cexStore0 3 1 3

def cexChild : Store × AERadialGrid := aeTruncate cexParent.1 cexParent.2 3 2

def cexAfter : Store := writeArr cexChild.1 cexChild.2.r_g 0 42

/-- C8 counterexample: on the all-electron grid with `beta = 1`, `N = 3`,
assigning `42` to element 0 of the radius array of `truncate(2)` changes the
radius array read through the **parent** (its head becomes `42` instead of
`0`): `truncate` does *not* return an object sharing no mutable state with
the parent, because `r_g`, `dr_g` and `d2gdr2` of the sub-grid are numpy
views on the parent's buffers. -/
theorem C8_truncate_counterexample :
    ¬(readArr cexAfter cexParent.2.r_g = readArr cexChild.1 cexParent.2.r_g) := by
  intro h
  have h0 := congrArg (fun l => l.getD 0 0) h
  simp [cexAfter, cexChild, cexParent, cexStore0, aeBuild, aeTruncate,
    rgdInit, alloc, readArr, writeArr, dvValues, lastValue,
    Function.update, List.range_succ] at h0

/-- C8 amended: `truncate(n)` covers exactly the first `n` points of the
parent (same radii and spacings, `rcut` the new last radius) for both
variants; the **equidistant** variant allocates fresh buffers and shares no
mutable state with the parent; but the **all-electron** variant's `r_g`,
`dr_g` and `d2gdr2` are *views* on the parent's buffers (assignment through
the truncated grid is visible through the parent), with only its `dv_g`
freshly allocated. -/
theorem C8_truncate_amended (s sA : Store) (piFl h beta : ℚ)
    (ng gmax N gcut : ℕ) (hg : 0 < gmax) (hle : gmax ≤ ng)
    (hc : 0 < gcut) (hcN : gcut ≤ N) :
    (independentViews
        (eqTruncate (eqBuild s piFl h ng).1 (eqBuild s piFl h ng).2 piFl
          gmax).1
        (eqTruncate (eqBuild s piFl h ng).1 (eqBuild s piFl h ng).2 piFl
          gmax).2.toRadialGrid
        (eqBuild s piFl h ng).2.toRadialGrid
      ∧ readArr
          (eqTruncate (eqBuild s piFl h ng).1 (eqBuild s piFl h ng).2 piFl
            gmax).1
          (eqTruncate (eqBuild s piFl h ng).1 (eqBuild s piFl h ng).2 piFl
            gmax).2.r_g
        = (readArr (eqBuild s piFl h ng).1 (eqBuild s piFl h ng).2.r_g).take
            gmax
      ∧ readArr
          (eqTruncate (eqBuild s piFl h ng).1 (eqBuild s piFl h ng).2 piFl
            gmax).1
          (eqTruncate (eqBuild s piFl h ng).1 (eqBuild s piFl h ng).2 piFl
            gmax).2.dr_g
        = (readArr (eqBuild s piFl h ng).1
            (eqBuild s piFl h ng).2.dr_g).take gmax
      ∧ (eqTruncate (eqBuild s piFl h ng).1 (eqBuild s piFl h ng).2 piFl
            gmax).2.rcut
        = lastValue (readArr
            (eqTruncate (eqBuild s piFl h ng).1 (eqBuild s piFl h ng).2 piFl
              gmax).1
            (eqTruncate (eqBuild s piFl h ng).1 (eqBuild s piFl h ng).2 piFl
              gmax).2.r_g)
      ∧ (eqTruncate (eqBuild s piFl h ng).1 (eqBuild s piFl h ng).2 piFl
            gmax).2.ng = gmax)
    ∧ ((aeTruncate (aeBuild sA piFl beta N).1 (aeBuild sA piFl beta N).2 piFl
          gcut).2.r_g.buf = (aeBuild sA piFl beta N).2.r_g.buf
      ∧ (aeTruncate (aeBuild sA piFl beta N).1 (aeBuild sA piFl beta N).2
          piFl gcut).2.dr_g.buf = (aeBuild sA piFl beta N).2.dr_g.buf
      ∧ (aeTruncate (aeBuild sA piFl beta N).1 (aeBuild sA piFl beta N).2
          piFl gcut).2.d2gdr2.buf = (aeBuild sA piFl beta N).2.d2gdr2.buf
      ∧ (∀ i v, i < gcut →
          readArr
            (writeArr
              (aeTruncate (aeBuild sA piFl beta N).1
                (aeBuild sA piFl beta N).2 piFl gcut).1
              (aeTruncate (aeBuild sA piFl beta N).1
                (aeBuild sA piFl beta N).2 piFl gcut).2.r_g i v)
            (aeBuild sA piFl beta N).2.r_g
          = (readArr
              (aeTruncate (aeBuild sA piFl beta N).1
                (aeBuild sA piFl beta N).2 piFl gcut).1
              (aeBuild sA piFl beta N).2.r_g).set i v)
      ∧ ((aeTruncate (aeBuild sA piFl beta N).1 (aeBuild sA piFl beta N).2
            piFl gcut).2.dv_g.buf ≠ (aeBuild sA piFl beta N).2.r_g.buf
        ∧ (aeTruncate (aeBuild sA piFl beta N).1 (aeBuild sA piFl beta N).2
            piFl gcut).2.dv_g.buf ≠ (aeBuild sA piFl beta N).2.dr_g.buf
        ∧ (aeTruncate (aeBuild sA piFl beta N).1 (aeBuild sA piFl beta N).2
            piFl gcut).2.dv_g.buf ≠ (aeBuild sA piFl beta N).2.dv_g.buf
        ∧ (aeTruncate (aeBuild sA piFl beta N).1 (aeBuild sA piFl beta N).2
            piFl gcut).2.dv_g.buf ≠ (aeBuild sA piFl beta N).2.d2gdr2.buf)
      ∧ readArr
          (aeTruncate (aeBuild sA piFl beta N).1 (aeBuild sA piFl beta N).2
            piFl gcut).1
          (aeTruncate (aeBuild sA piFl beta N).1 (aeBuild sA piFl beta N).2
            piFl gcut).2.r_g
        = (readArr (aeBuild sA piFl beta N).1
            (aeBuild sA piFl beta N).2.r_g).take gcut
      ∧ readArr
          (aeTruncate (aeBuild sA piFl beta N).1 (aeBuild sA piFl beta N).2
            piFl gcut).1
          (aeTruncate (aeBuild sA piFl beta N).1 (aeBuild sA piFl beta N).2
            piFl gcut).2.dr_g
        = (readArr (aeBuild sA piFl beta N).1
            (aeBuild sA piFl beta N).2.dr_g).take gcut
      ∧ readArr
          (aeTruncate (aeBuild sA piFl beta N).1 (aeBuild sA piFl beta N).2
            piFl gcut).1
          (aeTruncate (aeBuild sA piFl beta N).1 (aeBuild sA piFl beta N).2
            piFl gcut).2.d2gdr2
        = (readArr (aeBuild sA piFl beta N).1
            (aeBuild sA piFl beta N).2.d2gdr2).take gcut
      ∧ (aeTruncate (aeBuild sA piFl beta N).1 (aeBuild sA piFl beta N).2
            piFl gcut).2.rcut
        = lastValue (readArr
            (aeTruncate (aeBuild sA piFl beta N).1
              (aeBuild sA piFl beta N).2 piFl gcut).1
            (aeTruncate (aeBuild sA piFl beta N).1
              (aeBuild sA piFl beta N).2 piFl gcut).2.r_g)
      ∧ (aeTruncate (aeBuild sA piFl beta N).1 (aeBuild sA piFl beta N).2
            piFl gcut).2.ng = gcut) := by
  constructor
  · -- Equidistant variant: fresh, independent buffers
    obtain ⟨-, -, -, pl4⟩ := eqBuild_layout s piFl h ng
    obtain ⟨pb1, pb2, pb3⟩ := eqBuild_bufs s piFl h ng
    have et : eqTruncate (eqBuild s piFl h ng).1 (eqBuild s piFl h ng).2 piFl
        gmax = eqBuild (eqBuild s piFl h ng).1 piFl h gmax := rfl
    obtain ⟨cb1, cb2, cb3⟩ :=
      eqBuild_bufs (eqBuild s piFl h ng).1 piFl h gmax
    obtain ⟨pv1, pv2, pv3, pv4⟩ := eqBuild_values s piFl h ng
    obtain ⟨cv1, cv2, cv3, cv4⟩ :=
      eqBuild_values (eqBuild s piFl h ng).1 piFl h gmax
    refine ⟨?_, ?_, ?_, ?_, ?_⟩
    · intro rc hrc rp hrp
      have hcb : (eqBuild s piFl h ng).1.next ≤ rc.buf
          ∧ rc.buf ≤ (eqBuild s piFl h ng).1.next + 2 := by
        simp only [List.mem_cons, List.not_mem_nil, or_false] at hrc
        rcases hrc with rfl | rfl | rfl
        · rw [et, cb1]; omega
        · rw [et, cb2]; omega
        · rw [et, cb3]; omega
      have hpb : s.next ≤ rp.buf ∧ rp.buf ≤ s.next + 2 := by
        simp only [List.mem_cons, List.not_mem_nil, or_false] at hrp
        rcases hrp with rfl | rfl | rfl
        · rw [pb1]; omega
        · rw [pb2]; omega
        · rw [pb3]; omega
      have hne : rc.buf ≠ rp.buf := by omega
      exact ⟨hne, fun i v => readArr_writeArr_ne hne i v,
        fun i v => readArr_writeArr_ne (Ne.symm hne) i v⟩
    · rw [et, cv1, pv1, ← List.map_take, List.take_range,
        Nat.min_eq_left hle]
    · rw [et, cv2, pv2, ← List.map_take, List.take_range,
        Nat.min_eq_left hle]
    · rw [et, cv3, cv1]
    · rw [et, cv4]
  · -- All-electron variant: r_g / dr_g / d2gdr2 are views on the parent
    obtain ⟨al1, al2, al3, al4, al5, al6⟩ :=
      aeTruncate_layout (aeBuild sA piFl beta N).1 (aeBuild sA piFl beta N).2
        piFl gcut
    obtain ⟨pl1, pl2, pl3, pl4, pl5⟩ := aeBuild_layout sA piFl beta N
    obtain ⟨pb1, pb2, pb3, pb4⟩ := aeBuild_bufs sA piFl beta N
    have hreads := aeTruncate_reads (aeBuild sA piFl beta N).1
      (aeBuild sA piFl beta N).2 piFl gcut
      (by rw [pb1, pl5]; omega) (by rw [pl1]; exact hcN)
      (by rw [pb2, pl5]; omega) (by rw [pl2]; exact hcN)
      (by rw [pb4, pl5]; omega) (by rw [pl4]; exact hcN)
    obtain ⟨hr1, hr2, hr3, hr4⟩ := hreads
    refine ⟨by rw [al1], by rw [al2], by rw [al3], ?_, ?_, ?_, ?_, ?_, ?_,
      al6⟩
    · intro i v hiv
      rw [al1, pb1, show (aeBuild sA piFl beta N).2.r_g
          = ⟨sA.next, N⟩ from pl1]
      exact readArr_writeArr_shared _ _ _ _ _ _ hiv
    · rw [al4, pl5, pb1, pb2, pb3, pb4]
      omega
    · exact hr1
    · exact hr2
    · exact hr3
    · rw [hr4, hr1]

/-- Witness for C8 (amended): spacing 1 with 3 points truncated to 2 for the
equidistant grid, and `beta = 1`, `N = 3` truncated to 2 for the
all-electron grid. -/
theorem C8_truncate_amended_witness :
    ((0 : ℕ) < 2 ∧ 2 ≤ 3 ∧ (0 : ℕ) < 2 ∧ 2 ≤ 3) ∧
    independentViews
      (eqTruncate (eqBuild ⟨fun _ => [], 0⟩ 3 1 3).1
        (eqBuild ⟨fun _ => [], 0⟩ 3 1 3).2 3 2).1
      (eqTruncate (eqBuild ⟨fun _ => [], 0⟩ 3 1 3).1
        (eqBuild ⟨fun _ => [], 0⟩ 3 1 3).2 3 2).2.toRadialGrid
      (eqBuild ⟨fun _ => [], 0⟩ 3 1 3).2.toRadialGrid
    ∧ (aeTruncate (aeBuild ⟨fun _ => [], 0⟩ 3 1 3).1
        (aeBuild ⟨fun _ => [], 0⟩ 3 1 3).2 3 2).2.r_g.buf
      = (aeBuild ⟨fun _ => [], 0⟩ 3 1 3).2.r_g.buf :=
  ⟨⟨by decide, by decide, by decide, by decide⟩,
   (C8_truncate_amended ⟨fun _ => [], 0⟩ ⟨fun _ => [], 0⟩ 3 1 1 3 2 3 2
     (by decide) (by decide) (by decide) (by decide)).1.1,
   (C8_truncate_amended ⟨fun _ => [], 0⟩ ⟨fun _ => [], 0⟩ 3 1 1 3 2 3 2
     (by decide) (by decide) (by decide) (by decide)).2.1⟩

end GpawProof
